import Mathlib

/-!
Verification of the localwiki versioning/diff plugin layer.

Shallow embedding of:
* `sapling/trackchanges/history_model_methods.py` — reverse temporal
  lookups, revert engine, version numbers, the `history_info` façade,
  historical-instance initialization;
* `sapling/versionutils/diff/diffutils.py` — the diff-strategy registry
  and the model-diff memoization.

Database tables are embedded as Lean lists, Django QuerySet filters as
`List.filter`, and Python exceptions as `Except` errors.
-/

namespace TrackChanges

/-- A historical record (Version) of a related model B, as seen by the
reverse lookups in `_wrap_reverse_lookups`.  Field names follow the
Python model: `history_id` (auto-increment surrogate key),
`history_date` (timestamp, embedded as `Nat`), `attr` (the value of the
foreign-key attribute `rel_o.field.attname`, pointing at the resolving
entity's id), `parent_pk` (the related entity's own primary key,
`parent_model._meta.pk.attname`, copied into the snapshot), and `uniq`
(the related entity's uniqueness fields, copied into the snapshot). -/
structure BVersion where
  history_id : Nat
  history_date : Nat
  attr : Nat
  parent_pk : Nat
  uniq : String
deriving DecidableEq, Repr

/-- The candidate queryset of `_reverse_set_lookup` /
`_reverse_attr_lookup`:
`parent_model.history.filter(history_date__lte=as_of, **{attr: m.id})`. -/
def candidateVersions (m_id as_of : Nat) (history : List BVersion) :
    List BVersion :=
  history.filter (fun v => decide (v.history_date ≤ as_of ∧ v.attr = m_id))

/-- The `Max('history_id')` annotation of one `parent_pk` group:
the greatest `history_id` among the candidates whose `parent_pk` is `p`
(Django's aggregate over the grouped queryset). -/
def groupMaxHistoryId (qs : List BVersion) (p : Nat) : Nat :=
  ((qs.filter (fun v => decide (v.parent_pk = p))).map
    (fun v => v.history_id)).foldl Nat.max 0

/-- Embedding of `_reverse_set_lookup(m, rel_o)` (one-to-many reverse
lookup): filter the related model's history by
`history_date__lte=as_of` and FK attribute `= m.id`; group by the
parent model's primary key (`.order_by(parent_pk_att)
.values(parent_pk_att).distinct()`); annotate `Max('history_id')` per
group; return the history rows whose `history_id` is among those
maxima (`history.filter(history_id__in=history_ids)`). -/
def reverse_set_lookup (m_id as_of : Nat) (history : List BVersion) :
    List BVersion :=
  let qs := candidateVersions m_id as_of history
  let pks := (qs.map (fun v => v.parent_pk)).dedup
  let history_ids := pks.map (groupMaxHistoryId qs)
  history.filter (fun v => history_ids.contains v.history_id)

/-- The Python exception raised by indexing an empty queryset
(`qs[0]` with no rows). -/
inductive LookupError where
  | indexError
deriving DecidableEq, Repr

/-- Embedding of `_reverse_attr_lookup(m, rel_o)` (one-to-one reverse
lookup): `parent_model.history.filter(history_date__lte=as_of,
**{attr: m.id})[0]` — the first matching history row, with an
`IndexError` when the filtered queryset is empty. -/
def reverse_attr_lookup (m_id as_of : Nat) (history : List BVersion) :
    Except LookupError BVersion :=
  match candidateVersions m_id as_of history with
  | [] => .error .indexError
  | v :: _ => .ok v

end TrackChanges

section FoldMaxLemmas

/-- Every member of a list is bounded by the `Nat.max` fold over it. -/
theorem mem_le_foldl_max (l : List Nat) (a x : Nat) (hx : x ∈ l) :
    x ≤ l.foldl Nat.max a := by
  induction l generalizing a with
  | nil => cases hx
  | cons y l ih =>
    rcases List.mem_cons.mp hx with h | h
    · subst h
      have h1 : x ≤ Nat.max a x := Nat.le_max_right a x
      have h2 : Nat.max a x ≤ l.foldl Nat.max (Nat.max a x) := by
        clear ih hx h1
        induction l generalizing a x with
        | nil => exact Nat.le_refl _
        | cons z l ih =>
          exact Nat.le_trans (Nat.le_max_left (Nat.max a x) z) (ih _ _)
      exact Nat.le_trans h1 h2
    · exact ih _ h

/-- The `Nat.max` fold over a list is the seed or a member. -/
theorem foldl_max_mem (l : List Nat) (a : Nat) :
    l.foldl Nat.max a = a ∨ l.foldl Nat.max a ∈ l := by
  induction l generalizing a with
  | nil => exact Or.inl rfl
  | cons y l ih =>
    rcases ih (Nat.max a y) with h | h
    · rcases Nat.le_total a y with hay | hay
      · right
        rw [List.foldl_cons, h]
        have hm : Nat.max a y = y := Nat.max_eq_right hay
        rw [hm]
        exact List.mem_cons_self y l
      · exact Or.inl (by simpa [Nat.max_eq_left hay] using h)
    · exact Or.inr (List.mem_cons_of_mem _ h)

/-- The `Nat.max` fold with seed `0` over a nonempty list is a member. -/
theorem foldl_max_zero_mem (l : List Nat) (h : l ≠ []) :
    l.foldl Nat.max 0 ∈ l := by
  rcases foldl_max_mem l 0 with h0 | hm
  · cases l with
    | nil => exact absurd rfl h
    | cons y l =>
      have hy : y ≤ List.foldl Nat.max 0 (y :: l) :=
        mem_le_foldl_max _ _ _ (List.mem_cons_self y l)
      rw [h0] at hy
      have : y = 0 := Nat.le_zero.mp hy
      rw [h0, ← this]
      exact List.mem_cons_self y l
  · exact hm

/-- A list whose image under `f` has no duplicates has `f` injective
on its members. -/
theorem nodup_map_inj {α β : Type} (f : α → β) (l : List α)
    (h : (l.map f).Nodup) :
    ∀ a ∈ l, ∀ b ∈ l, f a = f b → a = b := by
  induction l with
  | nil => intro a ha; cases ha
  | cons x l ih =>
    rw [List.map_cons, List.nodup_cons] at h
    intro a ha b hb hab
    rcases List.mem_cons.mp ha with ha1 | ha1
    · rcases List.mem_cons.mp hb with hb1 | hb1
      · rw [ha1, hb1]
      · exfalso
        apply h.1
        rw [← ha1, hab]
        exact List.mem_map_of_mem f hb1
    · rcases List.mem_cons.mp hb with hb1 | hb1
      · exfalso
        apply h.1
        rw [← hb1, ← hab]
        exact List.mem_map_of_mem f ha1
      · exact ih h.2 a ha1 b hb1 hab

end FoldMaxLemmas

namespace TrackChanges

/-- Membership in the candidate queryset, unfolded. -/
theorem mem_candidateVersions {m_id as_of : Nat} {history : List BVersion}
    {v : BVersion} :
    v ∈ candidateVersions m_id as_of history ↔
      v ∈ history ∧ v.history_date ≤ as_of ∧ v.attr = m_id := by
  simp [candidateVersions, List.mem_filter]

/-- The per-group maximum bounds every candidate of the group. -/
theorem groupMaxHistoryId_ge {qs : List BVersion} {p : Nat} {w : BVersion}
    (hw : w ∈ qs) (hp : w.parent_pk = p) :
    w.history_id ≤ groupMaxHistoryId qs p := by
  apply mem_le_foldl_max
  exact List.mem_map_of_mem _ (List.mem_filter.mpr ⟨hw, by simp [hp]⟩)

/-- The per-group maximum of a nonempty group is attained by some
candidate of the group. -/
theorem groupMaxHistoryId_attained {qs : List BVersion} {p : Nat}
    (h : ∃ w ∈ qs, w.parent_pk = p) :
    ∃ u ∈ qs, u.parent_pk = p ∧ u.history_id = groupMaxHistoryId qs p := by
  obtain ⟨w, hw, hp⟩ := h
  have hmem : w ∈ qs.filter (fun v => decide (v.parent_pk = p)) :=
    List.mem_filter.mpr ⟨hw, by simp [hp]⟩
  have hne :
      (qs.filter (fun v => decide (v.parent_pk = p))).map
        (fun v => v.history_id) ≠ [] := by
    intro hnil
    rw [List.map_eq_nil_iff] at hnil
    rw [hnil] at hmem
    cases hmem
  have hin := foldl_max_zero_mem _ hne
  obtain ⟨u, hu, hid⟩ := List.mem_map.mp hin
  have hu' := List.mem_filter.mp hu
  exact ⟨u, hu'.1, by simpa using hu'.2, hid⟩

/-- Every member of the one-to-many reverse lookup result is a
candidate achieving its own group's maximum history id (assuming the
history ids, an auto-increment primary key, are pairwise distinct). -/
theorem mem_reverse_set_lookup {m_id as_of : Nat} {history : List BVersion}
    (hnd : (history.map (fun v => v.history_id)).Nodup)
    {v : BVersion} (hv : v ∈ reverse_set_lookup m_id as_of history) :
    v ∈ candidateVersions m_id as_of history ∧
      v.history_id =
        groupMaxHistoryId (candidateVersions m_id as_of history) v.parent_pk := by
  have hv' : v ∈ history ∧
      ∃ p, (∃ c ∈ candidateVersions m_id as_of history, c.parent_pk = p) ∧
        groupMaxHistoryId (candidateVersions m_id as_of history) p =
          v.history_id := by
    simpa [reverse_set_lookup, List.mem_filter, List.mem_dedup] using hv
  obtain ⟨hvh, p, hpc, hmax⟩ := hv'
  obtain ⟨u, hu, hup, huid⟩ := groupMaxHistoryId_attained hpc
  have huh : u ∈ history := (mem_candidateVersions.mp hu).1
  have huv : u = v :=
    nodup_map_inj _ _ hnd u huh v hvh (by rw [huid, hmax])
  subst huv
  refine ⟨hu, ?_⟩
  rw [hup]
  exact huid

end TrackChanges

open TrackChanges in
/-- C1 (counterexample to the claim as stated).  The claim says the
one-to-many reverse lookup groups robustly with respect to primary-key
reuse, using uniqueness fields, so that at most one Version per
distinct related-entity identity (uniqueness fields) is returned.  The
code groups by the raw `parent_pk` only: when the same identity `uniq
= "home"` occurs under two different primary keys (the pk cycled after
a delete/recreate), both groups survive and two Versions of the same
identity are returned. -/
def atMostOnePerIdentity (m_id as_of : Nat) (history : List BVersion) : Prop :=
  ∀ v ∈ reverse_set_lookup m_id as_of history,
    ∀ w ∈ reverse_set_lookup m_id as_of history, v.uniq = w.uniq → v = w

/-- C1 counterexample: two candidate Versions with the same uniqueness
identity `"home"` but different primary keys (1 then 2) both survive
the pk-based grouping, refuting the claimed uniqueness-field-based
grouping robustness. -/
theorem C1_reverse_set_lookup_counterexample :
    ¬ atMostOnePerIdentity 5 30
      [⟨1, 10, 5, 1, "home"⟩, ⟨2, 20, 5, 2, "home"⟩] := by
  unfold atMostOnePerIdentity
  decide

open TrackChanges in
/-- C1 (amended): for every Version with a one-to-many reverse
relationship, the reverse lookup returns only candidate Versions
(foreign-key attribute equal to the live identifier, timestamp ≤ the
resolving timestamp); each returned Version has the maximum history id
among candidates sharing its *raw primary key* (grouping is by
`parent_pk`, not by uniqueness fields); at most one Version per
distinct primary key is returned; every primary key with a candidate
is represented; and with no candidates the empty collection is
returned.  Assumes history ids (auto-increment primary key) are
pairwise distinct. -/
theorem C1_reverse_set_lookup_amended (m_id as_of : Nat)
    (history : List BVersion)
    (hnd : (history.map (fun v => v.history_id)).Nodup) :
    (∀ v ∈ reverse_set_lookup m_id as_of history,
      v ∈ candidateVersions m_id as_of history ∧
        ∀ w ∈ candidateVersions m_id as_of history,
          w.parent_pk = v.parent_pk → w.history_id ≤ v.history_id) ∧
    (∀ v ∈ reverse_set_lookup m_id as_of history,
      ∀ w ∈ reverse_set_lookup m_id as_of history,
        v.parent_pk = w.parent_pk → v = w) ∧
    (∀ p, (∃ c ∈ candidateVersions m_id as_of history, c.parent_pk = p) →
      ∃ v ∈ reverse_set_lookup m_id as_of history, v.parent_pk = p) ∧
    (candidateVersions m_id as_of history = [] →
      reverse_set_lookup m_id as_of history = []) := by
  refine ⟨?_, ?_, ?_, ?_⟩
  · intro v hv
    obtain ⟨hc, hmax⟩ := mem_reverse_set_lookup hnd hv
    refine ⟨hc, fun w hw hwp => ?_⟩
    rw [hmax]
    exact groupMaxHistoryId_ge hw hwp
  · intro v hv w hw hpk
    obtain ⟨hvc, hvmax⟩ := mem_reverse_set_lookup hnd hv
    obtain ⟨hwc, hwmax⟩ := mem_reverse_set_lookup hnd hw
    apply nodup_map_inj _ _ hnd v (mem_candidateVersions.mp hvc).1
      w (mem_candidateVersions.mp hwc).1
    rw [hvmax, hwmax, hpk]
  · intro p hp
    obtain ⟨u, hu, hup, humax⟩ := groupMaxHistoryId_attained hp
    refine ⟨u, ?_, hup⟩
    have hmem : u ∈ history ∧
        ∃ q, (∃ c ∈ candidateVersions m_id as_of history, c.parent_pk = q) ∧
          groupMaxHistoryId (candidateVersions m_id as_of history) q =
            u.history_id :=
      ⟨(mem_candidateVersions.mp hu).1, p, hp, humax.symm⟩
    simpa [reverse_set_lookup, List.mem_filter, List.mem_dedup] using hmem
  · intro h
    simp [reverse_set_lookup, h]

/-- C1 witness: the amended theorem applied at a concrete history with
pairwise-distinct history ids; primary key 1 has a candidate, so it is
represented in the result. -/
theorem C1_reverse_set_lookup_amended_witness :
    (([⟨1, 10, 5, 1, "home"⟩, ⟨2, 20, 5, 2, "casa"⟩] :
        List TrackChanges.BVersion).map (fun v => v.history_id)).Nodup ∧
    ∃ v ∈ TrackChanges.reverse_set_lookup 5 30
        [⟨1, 10, 5, 1, "home"⟩, ⟨2, 20, 5, 2, "casa"⟩], v.parent_pk = 1 :=
  ⟨by decide,
    (C1_reverse_set_lookup_amended 5 30
        [⟨1, 10, 5, 1, "home"⟩, ⟨2, 20, 5, 2, "casa"⟩] (by decide)).2.2.1 1
      ⟨⟨1, 10, 5, 1, "home"⟩, by decide, rfl⟩⟩

open TrackChanges in
/-- C6: the one-to-one reverse lookup returns the first matching
Version directly (not a collection), and with zero candidates it fails
loudly (an `IndexError` from indexing the empty queryset) rather than
returning an empty result or None. -/
theorem C6_reverse_attr_lookup (m_id as_of : Nat)
    (history : List BVersion) :
    (∀ v rest, candidateVersions m_id as_of history = v :: rest →
      reverse_attr_lookup m_id as_of history = .ok v) ∧
    (reverse_attr_lookup m_id as_of history = .error .indexError ↔
      ∀ v ∈ history, ¬(v.history_date ≤ as_of ∧ v.attr = m_id)) := by
  constructor
  · intro v rest h
    simp [reverse_attr_lookup, h]
  · constructor
    · intro h v hv hvc
      cases hq : candidateVersions m_id as_of history with
      | nil =>
        rw [candidateVersions, List.filter_eq_nil_iff] at hq
        have h2 := hq v hv
        simp only [decide_eq_true_eq] at h2
        exact h2 hvc
      | cons a t =>
        rw [reverse_attr_lookup, hq] at h
        cases h
    · intro h
      have hq : candidateVersions m_id as_of history = [] := by
        rw [candidateVersions, List.filter_eq_nil_iff]
        intro a ha
        simpa using h a ha
      simp [reverse_attr_lookup, hq]

/-- C6 witness: with one candidate row the lookup returns it. -/
theorem C6_reverse_attr_lookup_witness :
    TrackChanges.candidateVersions 5 30 [⟨1, 10, 5, 1, "home"⟩] =
      ⟨1, 10, 5, 1, "home"⟩ :: [] ∧
    TrackChanges.reverse_attr_lookup 5 30 [⟨1, 10, 5, 1, "home"⟩] =
      .ok ⟨1, 10, 5, 1, "home"⟩ :=
  ⟨by decide,
    (C6_reverse_attr_lookup 5 30 [⟨1, 10, 5, 1, "home"⟩]).1
      ⟨1, 10, 5, 1, "home"⟩ [] (by decide)⟩

namespace TrackChanges

/-- Modelled from the spec: the change-type codes of `constants.py`
(`TYPE_CHOICES`), which is not under `src/` — the enum created /
changed / deleted / reverted. -/
def TYPE_ADDED : Nat := 0

/-- Modelled from the spec: change-type code for an update snapshot. -/
def TYPE_CHANGED : Nat := 1

/-- Modelled from the spec: change-type code for a deletion snapshot. -/
def TYPE_DELETED : Nat := 2

/-- Modelled from the spec: change-type code for a revert snapshot. -/
def TYPE_REVERTED : Nat := 3

/-- A live row of the tracked Entity: primary key `pk`, uniqueness
fields beyond the pk (`uniq`), and the remaining data fields
(`data`). -/
structure Entity where
  pk : Nat
  uniq : String
  data : String
deriving DecidableEq, Repr

/-- A Version (historical record) of the tracked Entity itself: the
audit fields installed by `get_history_fields` plus the frozen
snapshot of the entity's own fields (`snap_pk`, `snap_uniq`,
`snap_data`, read back through `history_info._object`). -/
structure HVersion where
  history_id : Nat
  history_date : Nat
  history_type : Nat
  history_reverted_to_version : Option Nat
  snap_pk : Nat
  snap_uniq : String
  snap_data : String
deriving DecidableEq, Repr

/-- The store visible to the revert engine: the live table, the
history table, the next auto-increment history id, and the current
clock used for the `history_date` default. -/
structure World where
  live : List Entity
  history : List HVersion
  next_history_id : Nat
  now : Nat
deriving DecidableEq, Repr

/-- Modelled from the spec: `save_with_arguments`, the overridden
`save` of a versioned live model (defined outside `src/`): always
writes a new Version row recording the pending change type and the
reverted-to reference, and inserts or updates the live row by pk. -/
def save_with_arguments (m : Entity) (htype : Nat)
    (reverted_to : Option Nat) (w : World) : World :=
  { live :=
      if w.live.any (fun e => e.pk == m.pk) then
        w.live.map (fun e => if e.pk == m.pk then m else e)
      else w.live ++ [m],
    history := w.history ++
      [⟨w.next_history_id, w.now, htype, reverted_to, m.pk, m.uniq, m.data⟩],
    next_history_id := w.next_history_id + 1,
    now := w.now }

/-- Modelled from the spec: `delete_with_arguments` on a versioned
*live* model (defined outside `src/`): removes the live row and writes
a new deletion Version referencing the reverted-to Version. -/
def delete_with_arguments (m : Entity) (reverted_to : Option Nat)
    (w : World) : World :=
  { live := w.live.filter (fun e => !(e.pk == m.pk)),
    history := w.history ++
      [⟨w.next_history_id, w.now, TYPE_DELETED, reverted_to, m.pk, m.uniq,
        m.data⟩],
    next_history_id := w.next_history_id + 1,
    now := w.now }

/-- Modelled from the spec: deleting a *historical* record row with
`track_changes=False` (the history model's overridden delete, defined
outside `src/`): removes the Version row and, being untracked, writes
no audit entry. -/
def delete_version_untracked (v : HVersion) (history : List HVersion) :
    List HVersion :=
  history.filter (fun u => !(u.history_id == v.history_id))

/-- The pruning loop of `revert_to`:
`newer = m.history.filter(history_info__date__gt=...)` followed by
`v.delete(track_changes=False)` for each strictly newer Version. -/
def prune_newer (hm_date : Nat) (history : List HVersion) :
    List HVersion :=
  (history.filter (fun v => decide (hm_date < v.history_date))).foldl
    (fun h v => delete_version_untracked v h) history

/-- The identity-reconciliation step of `revert_to`:
`ms = m.__class__.objects.filter(**unique_fields)`; when a live match
exists, `m.pk = ms[0].pk`.  `unique_fields_of` (from `utils.py`, not
under `src/`) is modelled from the spec as the Version's uniqueness
fields excluding the primary key — here the `uniq` field, assumed
nonempty so the `if unique_fields:` guard passes. -/
def reconcile_pk (m : Entity) (live : List Entity) : Entity :=
  match live.filter (fun e => e.uniq == m.uniq) with
  | [] => m
  | e :: _ => { m with pk := e.pk }

/-- Embedding of `revert_to(hm, delete_newer_versions=False, **kws)`:
reconstruct the live instance from the snapshot
(`hm.history_info._object`), reconcile its pk against the live table,
optionally prune strictly newer Versions (untracked), mark the pending
change type as reverted, then delete (when reverting to a deleted
snapshot) or save — either way referencing the reverted-to Version. -/
def revert_to (hm : HVersion) (delete_newer_versions : Bool)
    (w : World) : World :=
  let m0 : Entity := ⟨hm.snap_pk, hm.snap_uniq, hm.snap_data⟩
  let m := reconcile_pk m0 w.live
  let w1 :=
    if delete_newer_versions then
      { w with history := prune_newer hm.history_date w.history }
    else w
  if hm.history_type = TYPE_DELETED then
    delete_with_arguments m (some hm.history_id) w1
  else
    save_with_arguments m TYPE_REVERTED (some hm.history_id) w1

/-- Structural form of every revert: the (possibly pruned) history
with exactly one new Version appended, whose fields are determined by
the snapshot, the reconciled instance and the store's clock. -/
theorem revert_to_appends (hm : HVersion) (b : Bool) (w : World) :
    (revert_to hm b w).history =
      (if b then prune_newer hm.history_date w.history else w.history) ++
      [⟨w.next_history_id, w.now,
        if hm.history_type = TYPE_DELETED then TYPE_DELETED
        else TYPE_REVERTED,
        some hm.history_id,
        (reconcile_pk ⟨hm.snap_pk, hm.snap_uniq, hm.snap_data⟩ w.live).pk,
        (reconcile_pk ⟨hm.snap_pk, hm.snap_uniq, hm.snap_data⟩ w.live).uniq,
        (reconcile_pk ⟨hm.snap_pk, hm.snap_uniq, hm.snap_data⟩
          w.live).data⟩] := by
  cases b <;> by_cases h : hm.history_type = TYPE_DELETED <;>
    simp [revert_to, h, delete_with_arguments, save_with_arguments]

end TrackChanges

open TrackChanges in
/-- C2: every revert produces exactly one new Version (beyond the
optional pruning): the resulting history is the — possibly pruned —
old history with a single Version appended; that Version's
`history_reverted_to_version` is populated with the reverted-to
Version; reverting to a deleted snapshot records a deletion Version,
reverting to any other snapshot records a reverted Version. -/
theorem C2_revert_to_one_new_version (hm : HVersion)
    (delete_newer_versions : Bool) (w : World) :
    ∃ v : HVersion,
      (revert_to hm delete_newer_versions w).history =
        (if delete_newer_versions then
          prune_newer hm.history_date w.history
         else w.history) ++ [v] ∧
      v.history_reverted_to_version = some hm.history_id ∧
      v.history_type =
        (if hm.history_type = TYPE_DELETED then TYPE_DELETED
         else TYPE_REVERTED) :=
  ⟨_, revert_to_appends hm delete_newer_versions w, rfl, rfl⟩

open TrackChanges in
/-- C3: identity reconciliation during revert: when at least one live
Entity matches the snapshot's uniqueness fields, the reconstructed
instance keeps its fields but takes the primary key of the *first*
live match; with no live match the snapshot's primary key is kept
unchanged; and the Version written by the revert snapshots the
reconciled primary key. -/
theorem C3_revert_reconcile_pk :
    (∀ (m : Entity) (live : List Entity) (e : Entity) (l : List Entity),
      live.filter (fun x => x.uniq == m.uniq) = e :: l →
      reconcile_pk m live = { m with pk := e.pk }) ∧
    (∀ (m : Entity) (live : List Entity),
      live.filter (fun x => x.uniq == m.uniq) = [] →
      reconcile_pk m live = m) ∧
    (∀ (hm : HVersion) (b : Bool) (w : World),
      ∃ (pre : List HVersion) (v : HVersion),
        (revert_to hm b w).history = pre ++ [v] ∧
        v.snap_pk =
          (reconcile_pk ⟨hm.snap_pk, hm.snap_uniq, hm.snap_data⟩
            w.live).pk) := by
  refine ⟨?_, ?_, ?_⟩
  · intro m live e l h
    simp [reconcile_pk, h]
  · intro m live h
    simp [reconcile_pk, h]
  · intro hm b w
    exact ⟨_, _, revert_to_appends hm b w, rfl⟩

open TrackChanges in
/-- C3 witness: with a live row of matching uniqueness fields under a
different pk, the reconstructed instance takes the live row's pk. -/
theorem C3_revert_reconcile_pk_witness :
    (([⟨7, "home", "x"⟩] : List Entity).filter
      (fun x => x.uniq == (⟨1, "home", "old"⟩ : Entity).uniq) =
        (⟨7, "home", "x"⟩ : Entity) :: []) ∧
    reconcile_pk ⟨1, "home", "old"⟩ [⟨7, "home", "x"⟩] =
      ⟨7, "home", "old"⟩ :=
  ⟨by decide,
    C3_revert_reconcile_pk.1 ⟨1, "home", "old"⟩ [⟨7, "home", "x"⟩]
      ⟨7, "home", "x"⟩ [] (by decide)⟩

namespace TrackChanges

/-- Folding untracked Version deletions over the history removes
exactly the rows whose history id occurs in the deletion list. -/
theorem foldl_delete_untracked (del : List HVersion)
    (h0 : List HVersion) :
    del.foldl (fun h v => delete_version_untracked v h) h0 =
      h0.filter (fun u =>
        !(del.any (fun v => u.history_id == v.history_id))) := by
  induction del generalizing h0 with
  | nil => simp
  | cons v del ih =>
    rw [List.foldl_cons, ih, delete_version_untracked, List.filter_filter]
    apply List.filter_congr
    intro u _
    simp [Bool.and_comm]
  
/-- With pairwise-distinct history ids, the pruning loop keeps exactly
the Versions whose timestamp is ≤ the reverted-to timestamp. -/
theorem prune_newer_eq_filter (hm_date : Nat) (history : List HVersion)
    (hnd : (history.map (fun v => v.history_id)).Nodup) :
    prune_newer hm_date history =
      history.filter (fun v => decide (v.history_date ≤ hm_date)) := by
  rw [prune_newer, foldl_delete_untracked]
  apply List.filter_congr
  intro u hu
  by_cases hd : u.history_date ≤ hm_date
  · have hany : (history.filter
        (fun v => decide (hm_date < v.history_date))).any
          (fun v => u.history_id == v.history_id) = false := by
      rw [List.any_eq_false]
      intro v hv
      have hv' := List.mem_filter.mp hv
      have hvd : hm_date < v.history_date := by simpa using hv'.2
      intro hbe
      have he : u.history_id = v.history_id := by simpa using hbe
      have := nodup_map_inj _ _ hnd u hu v hv'.1 he
      rw [this] at hd
      omega
    simp [hany, hd]
  · have hany : (history.filter
        (fun v => decide (hm_date < v.history_date))).any
          (fun v => u.history_id == v.history_id) = true := by
      rw [List.any_eq_true]
      exact ⟨u, List.mem_filter.mpr ⟨hu, by simp; omega⟩, by simp⟩
    simp [hany, hd]

end TrackChanges

open TrackChanges in
/-- C4: reverting with the delete-newer-versions option deletes every
Version strictly newer than the reverted-to Version, those deletions
write no audit entries, and Versions with timestamp ≤ the reverted-to
timestamp are kept unchanged: the resulting history is exactly the old
history restricted to timestamps ≤ the reverted-to timestamp followed
by the single Version recorded by the revert itself.  Assumes
pairwise-distinct history ids. -/
theorem C4_revert_to_prunes (hm : HVersion) (w : World)
    (hnd : (w.history.map (fun v => v.history_id)).Nodup) :
    ∃ v : HVersion,
      (revert_to hm true w).history =
        w.history.filter
          (fun u => decide (u.history_date ≤ hm.history_date)) ++ [v] := by
  have h := revert_to_appends hm true w
  rw [if_pos rfl, prune_newer_eq_filter _ _ hnd] at h
  exact ⟨_, h⟩

open TrackChanges in
/-- C4 witness: a two-Version history; reverting to the older Version
with pruning drops the newer Version and appends one revert Version. -/
theorem C4_revert_to_prunes_witness :
    ((([⟨1, 10, TYPE_ADDED, none, 1, "home", "a"⟩,
        ⟨2, 20, TYPE_CHANGED, none, 1, "home", "b"⟩] : List HVersion).map
          (fun v => v.history_id)).Nodup) ∧
    ∃ v : HVersion,
      (revert_to ⟨1, 10, TYPE_ADDED, none, 1, "home", "a"⟩ true
        ⟨[⟨1, "home", "b"⟩],
         [⟨1, 10, TYPE_ADDED, none, 1, "home", "a"⟩,
          ⟨2, 20, TYPE_CHANGED, none, 1, "home", "b"⟩], 3, 50⟩).history =
      ([⟨1, 10, TYPE_ADDED, none, 1, "home", "a"⟩,
        ⟨2, 20, TYPE_CHANGED, none, 1, "home", "b"⟩] : List HVersion).filter
          (fun u => decide (u.history_date ≤ 10)) ++ [v] :=
  ⟨by decide,
    C4_revert_to_prunes ⟨1, 10, TYPE_ADDED, none, 1, "home", "a"⟩
      ⟨[⟨1, "home", "b"⟩],
       [⟨1, 10, TYPE_ADDED, none, 1, "home", "a"⟩,
        ⟨2, 20, TYPE_CHANGED, none, 1, "home", "b"⟩], 3, 50⟩ (by decide)⟩

namespace TrackChanges

/-- A historical instance together with its per-instance cache cell:
`hm.history_info.instance._version_number`, `none` until the first
access. -/
structure HInstance where
  hm : HVersion
  _version_number : Option Nat
deriving DecidableEq, Repr

/-- Embedding of `version_number_of(hm)`: when the cached
`_version_number` is None, count the entity's Versions with
`history_date__lte` this Version's date
(`len(obj.history.filter(history_date__lte=date))`) and store it on
the instance; return the cached value. -/
def version_number_of (history : List HVersion) (inst : HInstance) :
    Nat × HInstance :=
  match inst._version_number with
  | some n => (n, inst)
  | none =>
      let n := (history.filter
        (fun v => decide (v.history_date ≤ inst.hm.history_date))).length
      (n, { inst with _version_number := some n })

/-- The count of Versions dated ≤ a timestamp grows strictly when the
timestamp passes another stored Version's date. -/
theorem version_count_strict_mono {history : List HVersion}
    {v w : HVersion} (hw : w ∈ history)
    (hvw : v.history_date < w.history_date) :
    (history.filter
      (fun u => decide (u.history_date ≤ v.history_date))).length <
    (history.filter
      (fun u => decide (u.history_date ≤ w.history_date))).length := by
  have hsub : (history.filter
        (fun u => decide (u.history_date ≤ w.history_date))).filter
          (fun u => decide (u.history_date ≤ v.history_date)) =
      history.filter (fun u => decide (u.history_date ≤ v.history_date)) := by
    rw [List.filter_filter]
    apply List.filter_congr
    intro u _
    by_cases h : u.history_date ≤ v.history_date
    · simp [h, Nat.le_trans h (Nat.le_of_lt hvw)]
    · simp [h]
  rw [← hsub]
  apply List.length_filter_lt_length_iff_exists.mpr
  refine ⟨w, List.mem_filter.mpr ⟨hw, by simp⟩, ?_⟩
  simp only [decide_eq_true_eq]
  omega

end TrackChanges

open TrackChanges in
/-- C5: (i) the version number of a freshly accessed Version equals
the count of the entity's Versions with timestamp ≤ its own;
(ii) along any enumeration of stored Versions strictly ordered by
timestamp, the version numbers are strictly increasing — hence
duplicate-free; (iii) the value is computed on first access and cached
per instance: a repeated access returns the identical cached result. -/
theorem C5_version_number (history : List HVersion) :
    (∀ hm : HVersion,
      (version_number_of history ⟨hm, none⟩).1 =
        (history.filter
          (fun v => decide (v.history_date ≤ hm.history_date))).length) ∧
    (∀ seq : List HVersion, (∀ v ∈ seq, v ∈ history) →
      seq.Pairwise (fun a b => a.history_date < b.history_date) →
      (seq.map
        (fun v => (version_number_of history ⟨v, none⟩).1)).Pairwise
          (· < ·)) ∧
    (∀ inst : HInstance,
      version_number_of history (version_number_of history inst).2 =
        version_number_of history inst) := by
  refine ⟨?_, ?_, ?_⟩
  · intro hm
    rfl
  · intro seq hseq hsorted
    rw [List.pairwise_map]
    refine List.Pairwise.imp_of_mem ?_ hsorted
    intro a b ha hb hab
    simpa [version_number_of] using
      version_count_strict_mono (hseq b hb) hab
  · intro inst
    rcases h : inst._version_number with _ | n <;>
      simp [version_number_of, h]

open TrackChanges in
/-- C5 witness: a three-Version history with distinct timestamps,
enumerated in timestamp order, has strictly increasing version
numbers. -/
theorem C5_version_number_witness :
    (∀ v ∈ ([⟨1, 10, 0, none, 1, "home", "a"⟩,
             ⟨2, 20, 1, none, 1, "home", "b"⟩,
             ⟨3, 30, 1, none, 1, "home", "c"⟩] : List HVersion),
      v ∈ ([⟨1, 10, 0, none, 1, "home", "a"⟩,
            ⟨2, 20, 1, none, 1, "home", "b"⟩,
            ⟨3, 30, 1, none, 1, "home", "c"⟩] : List HVersion)) ∧
    ([⟨1, 10, 0, none, 1, "home", "a"⟩,
      ⟨2, 20, 1, none, 1, "home", "b"⟩,
      ⟨3, 30, 1, none, 1, "home", "c"⟩] : List HVersion).Pairwise
        (fun a b => a.history_date < b.history_date) ∧
    (([⟨1, 10, 0, none, 1, "home", "a"⟩,
       ⟨2, 20, 1, none, 1, "home", "b"⟩,
       ⟨3, 30, 1, none, 1, "home", "c"⟩] : List HVersion).map
      (fun v => (version_number_of
        [⟨1, 10, 0, none, 1, "home", "a"⟩,
         ⟨2, 20, 1, none, 1, "home", "b"⟩,
         ⟨3, 30, 1, none, 1, "home", "c"⟩] ⟨v, none⟩).1)).Pairwise
          (· < ·) :=
  ⟨fun _ h => h, by decide,
    (C5_version_number
      [⟨1, 10, 0, none, 1, "home", "a"⟩,
       ⟨2, 20, 1, none, 1, "home", "b"⟩,
       ⟨3, 30, 1, none, 1, "home", "c"⟩]).2.1
      [⟨1, 10, 0, none, 1, "home", "a"⟩,
       ⟨2, 20, 1, none, 1, "home", "b"⟩,
       ⟨3, 30, 1, none, 1, "home", "c"⟩] (fun _ h => h) (by decide)⟩

namespace TrackChanges

/-- A Python object's attribute dictionary: attribute name to value. -/
abbrev Attrs := List (String × String)

/-- Python `getattr`: the attribute's value, or an AttributeError
carrying the missing name. -/
def getattr (inst : Attrs) (name : String) : Except String String :=
  match inst.lookup name with
  | some v => .ok v
  | none => .error name

/-- Python attribute assignment on a plain object: always (re)binds
the attribute. -/
def setattr (inst : Attrs) (name v : String) : Attrs :=
  (name, v) :: inst.filter (fun kv => !(kv.1 == name))

/-- Embedding of `HistoricalMetaInfo.__getattr__`: reads
`history_<name>` off the wrapped instance
(`getattr(self.__dict__['instance'], 'history_%s' % name)`); a missing
attribute is re-raised as
`AttributeError("history_info has no attribute <name>")`. -/
def history_info_getattr (inst : Attrs) (name : String) :
    Except String String :=
  match getattr inst ("history_" ++ name) with
  | .ok v => .ok v
  | .error _ => .error ("history_info has no attribute " ++ name)

/-- Embedding of `HistoricalMetaInfo.__setattr__` for a name other
than `instance`: writes `history_<name>` on the wrapped instance. -/
def history_info_setattr (inst : Attrs) (name v : String) : Attrs :=
  setattr inst ("history_" ++ name) v

end TrackChanges

open TrackChanges in
/-- C8: reading `history_info.X` returns the instance's `history_X`
attribute; writing `history_info.X = v` sets the instance's
`history_X` attribute; and reading a name with no backing `history_X`
attribute raises an AttributeError-equivalent that is propagated. -/
theorem C8_history_info (inst : Attrs) (name v : String) :
    (inst.lookup ("history_" ++ name) = some v →
      history_info_getattr inst name = .ok v) ∧
    (getattr (history_info_setattr inst name v) ("history_" ++ name) =
      .ok v) ∧
    (inst.lookup ("history_" ++ name) = none →
      history_info_getattr inst name =
        .error ("history_info has no attribute " ++ name)) := by
  refine ⟨?_, ?_, ?_⟩
  · intro h
    simp [history_info_getattr, getattr, h]
  · simp [history_info_setattr, setattr, getattr]
  · intro h
    simp [history_info_getattr, getattr, h]

open TrackChanges in
/-- C8 witness: on an instance holding `history_date`, reading
`history_info.date` returns it, and reading `history_info.type` (no
`history_type` attribute present) raises the propagated
AttributeError. -/
theorem C8_history_info_witness :
    (([("history_date", "d1")] : Attrs).lookup
        ("history_" ++ "date") = some "d1") ∧
    history_info_getattr [("history_date", "d1")] "date" = .ok "d1" ∧
    (([("history_date", "d1")] : Attrs).lookup
        ("history_" ++ "type") = none) ∧
    history_info_getattr [("history_date", "d1")] "type" =
      .error ("history_info has no attribute " ++ "type") :=
  ⟨by decide,
    (C8_history_info [("history_date", "d1")] "date" "d1").1 (by decide),
    by decide,
    (C8_history_info [("history_date", "d1")] "type" "unused").2.2
      (by decide)⟩

namespace TrackChanges

/-- Python runtime errors surfaced during historical-instance
initialization. -/
inductive PyError where
  | typeError
deriving DecidableEq, Repr

/-- A many-to-many field of the live model as inspected by
`_wrap_foreign_keys`: whether `field.related.parent_model` is itself
versioned (`is_versioned(...)`). -/
structure M2MField where
  versionedTarget : Bool
deriving DecidableEq, Repr

/-- The `_meta.many_to_many` of a historical model instance. -/
structure ModelMeta where
  many_to_many : List M2MField
deriving DecidableEq, Repr

/-- Python `setattr()` called with no arguments (line 97 of
`history_model_methods.py`): in Python this unconditionally raises
`TypeError`. -/
def setattr_no_args : Except PyError Unit := .error .typeError

/-- The `for field in m._meta.many_to_many` loop of
`_wrap_foreign_keys`: for each field whose related parent model is
versioned, call `setattr()` with no arguments. -/
def wrap_many_to_many : List M2MField → Except PyError Unit
  | [] => .ok ()
  | f :: rest =>
      if f.versionedTarget then do
        setattr_no_args
        wrap_many_to_many rest
      else wrap_many_to_many rest

/-- Embedding of `_wrap_foreign_keys(m)`: the loop over `_meta.fields`
reassigns each `VersionedForeignKey` attribute to its proper-version
lookup (plain attribute assignments, which succeed and are not
modelled further), then the many-to-many loop runs. -/
def wrap_foreign_keys (meta : ModelMeta) : Except PyError Unit :=
  wrap_many_to_many meta.many_to_many

/-- Embedding of `_wrap_reverse_lookups(m)`: installs lazy reverse
accessors via attribute assignment only; always succeeds. -/
def wrap_reverse_lookups (_meta : ModelMeta) : Except PyError Unit :=
  .ok ()

/-- Embedding of `historical_record_init`: after the base initializer,
`_wrap_foreign_keys(m)` then `_wrap_reverse_lookups(m)`; an exception
in the former propagates out of the constructor. -/
def historical_record_init (meta : ModelMeta) : Except PyError Unit := do
  wrap_foreign_keys meta
  wrap_reverse_lookups meta

/-- The many-to-many wrapping loop fails with `TypeError` exactly when
some field's target is versioned. -/
theorem wrap_many_to_many_spec (l : List M2MField) :
    (wrap_many_to_many l = .error .typeError ↔
      ∃ f ∈ l, f.versionedTarget = true) ∧
    (wrap_many_to_many l = .ok () ↔
      ∀ f ∈ l, f.versionedTarget = false) := by
  induction l with
  | nil => simp [wrap_many_to_many]
  | cons f rest ih =>
    by_cases h : f.versionedTarget = true
    · simp [wrap_many_to_many, h, setattr_no_args, Bind.bind, Except.bind]
    · simp only [Bool.not_eq_true] at h
      simp [wrap_many_to_many, h, ih.1, ih.2]

end TrackChanges

open TrackChanges in
/-- C10 (implicit): constructing a historical (Version) instance of a
model that declares a many-to-many relationship towards a versioned
target raises a TypeError — `_wrap_foreign_keys`, invoked from the
Version initializer, calls `setattr()` with no arguments for every
such relationship; construction succeeds exactly for models with no
versioned many-to-many relationships. -/
theorem C10_init_versioned_m2m_raises (meta : ModelMeta) :
    (historical_record_init meta = .error .typeError ↔
      ∃ f ∈ meta.many_to_many, f.versionedTarget = true) ∧
    (historical_record_init meta = .ok () ↔
      ∀ f ∈ meta.many_to_many, f.versionedTarget = false) := by
  have h := wrap_many_to_many_spec meta.many_to_many
  constructor
  · rw [← h.1]
    unfold historical_record_init wrap_foreign_keys wrap_reverse_lookups
    cases hw : wrap_many_to_many meta.many_to_many with
    | ok u => cases u; simp [Bind.bind, Except.bind]
    | error e => cases e; simp [Bind.bind, Except.bind]
  · rw [← h.2]
    unfold historical_record_init wrap_foreign_keys wrap_reverse_lookups
    cases hw : wrap_many_to_many meta.many_to_many with
    | ok u => cases u; simp [Bind.bind, Except.bind]
    | error e => cases e; simp [Bind.bind, Except.bind]

namespace Diff

/-- A Python class as seen by `Registry.get_diff_util`: `object`, or a
named class with its single first base class (`__base__`). -/
inductive PyType where
  | object : PyType
  | mk : String → PyType → PyType
deriving DecidableEq, Repr, BEq

/-- The class `django.db.models.Field`. -/
def FieldType : PyType := .mk "Field" .object

/-- The class `django.db.models.Model`. -/
def ModelType : PyType := .mk "Model" .object

/-- The class `django.db.models.ForeignKey` (a kind of `Field`). -/
def ForeignKeyType : PyType := .mk "ForeignKey" FieldType

/-- The diff-util classes of `diffutils.py` that a registry entry can
name. -/
inductive DiffUtil where
  | baseModel
  | baseField
  | text
  | html
  | file
  | image
  | geometry
  | custom : String → DiffUtil
deriving DecidableEq, Repr

/-- The exception raised when no registered strategy and no ancestor
match exists for a type. -/
inductive DiffUtilNotFound where
  | notFound
deriving DecidableEq, Repr

/-- The `Registry._registry` dict: class to diff-util class. -/
def Registry := List (PyType × DiffUtil)

/-- Embedding of `Registry.register(model_or_field, diff_util)`:
`self._registry[model_or_field] = diff_util`. -/
def Registry.register (reg : Registry) (t : PyType) (u : DiffUtil) :
    Registry :=
  (t, u) :: reg

/-- Dict membership test and read,
`model_or_field in self._registry` / `self._registry[model_or_field]`. -/
def lookupReg (reg : Registry) (t : PyType) : Option DiffUtil :=
  List.lookup t reg

/-- Embedding of `Registry.get_diff_util(model_or_field)`: exact
registry match first; then the three hardcoded roots (`ForeignKey` and
`Model` fall back to `BaseModelDiff`, `Field` to `BaseFieldDiff`);
otherwise, when `__base__ is not object`, recurse on the single first
base class; otherwise raise `DiffUtilNotFound`. -/
def get_diff_util (reg : Registry) :
    PyType → Except DiffUtilNotFound DiffUtil
  | .object =>
      match lookupReg reg .object with
      | some u => .ok u
      | none => .error .notFound
  | .mk n base =>
      match lookupReg reg (.mk n base) with
      | some u => .ok u
      | none =>
          if PyType.mk n base = ForeignKeyType then .ok .baseModel
          else if PyType.mk n base = ModelType then .ok .baseModel
          else if PyType.mk n base = FieldType then .ok .baseField
          else if base = .object then .error .notFound
          else get_diff_util reg base

/-- The ancestor walk actually performed by `get_diff_util` on a
class: the class itself and its bases, excluding `object` (the walk
stops when `__base__ is object`). -/
def ancestorChain : PyType → List PyType
  | .object => []
  | .mk n base => .mk n base :: ancestorChain base

end Diff

namespace Diff

/-- Failure characterization: `get_diff_util` fails (with
DiffUtilNotFound) exactly when every
ancestor in the walk — the class and its bases short of `object` — is
unregistered and is none of the three hardcoded roots. -/
theorem get_diff_util_error_iff (reg : Registry) :
    ∀ t : PyType, t ≠ .object →
      (get_diff_util reg t = .error .notFound ↔
        ∀ a ∈ ancestorChain t,
          lookupReg reg a = none ∧ a ≠ ForeignKeyType ∧ a ≠ ModelType ∧
            a ≠ FieldType) := by
  intro t
  induction t with
  | object => intro h; exact absurd rfl h
  | mk n base ih =>
    intro _
    have hchain :
        ancestorChain (.mk n base) = .mk n base :: ancestorChain base := rfl
    rw [hchain, List.forall_mem_cons]
    rcases hl : lookupReg reg (.mk n base) with _ | u
    · by_cases hf : PyType.mk n base = ForeignKeyType
      · constructor
        · intro he
          rw [show get_diff_util reg (.mk n base) = .ok .baseModel from by
            simp only [get_diff_util, hl]
            rw [if_pos hf]] at he
          cases he
        · rintro ⟨⟨-, hne, -⟩, -⟩
          exact absurd hf hne
      · by_cases hm : PyType.mk n base = ModelType
        · constructor
          · intro he
            rw [show get_diff_util reg (.mk n base) = .ok .baseModel from by
              simp only [get_diff_util, hl]
              rw [if_neg hf, if_pos hm]] at he
            cases he
          · rintro ⟨⟨-, -, hne, -⟩, -⟩
            exact absurd hm hne
        · by_cases hfd : PyType.mk n base = FieldType
          · constructor
            · intro he
              rw [show get_diff_util reg (.mk n base) = .ok .baseField from by
                simp only [get_diff_util, hl]
                rw [if_neg hf, if_neg hm, if_pos hfd]] at he
              cases he
            · rintro ⟨⟨-, -, -, hne⟩, -⟩
              exact absurd hfd hne
          · by_cases hbo : base = PyType.object
            · constructor
              · intro _
                refine ⟨⟨rfl, hf, hm, hfd⟩, ?_⟩
                subst hbo
                simp [ancestorChain]
              · intro _
                simp only [get_diff_util, hl]
                rw [if_neg hf, if_neg hm, if_neg hfd, if_pos hbo]
            · have hrec : get_diff_util reg (.mk n base) =
                  get_diff_util reg base := by
                simp only [get_diff_util, hl]
                rw [if_neg hf, if_neg hm, if_neg hfd, if_neg hbo]
              rw [hrec, ih hbo]
              constructor
              · intro h2
                exact ⟨⟨rfl, hf, hm, hfd⟩, h2⟩
              · intro h2
                exact h2.2
    · constructor
      · intro he
        rw [show get_diff_util reg (.mk n base) = .ok u from by
          simp [get_diff_util, hl]] at he
        cases he
      · rintro ⟨⟨hnone, -⟩, -⟩
        cases hnone

end Diff

open Diff in
/-- C7: the strategy lookup returns the exactly-registered strategy
when the type is registered; otherwise the three hardcoded roots map
the generic foreign key and the generic record to the model diff and
the generic field to the field diff; otherwise it recurses on the
type's single first ancestor; and it returns DiffUtilNotFound (the
code's name for the spec's DiffStrategyNotFound, propagated as an
error) exactly when the ancestor walk reaches a root type with no
match. -/
theorem C7_get_diff_util (reg : Registry) :
    (∀ t u, lookupReg reg t = some u → get_diff_util reg t = .ok u) ∧
    (lookupReg reg ForeignKeyType = none →
      get_diff_util reg ForeignKeyType = .ok .baseModel) ∧
    (lookupReg reg ModelType = none →
      get_diff_util reg ModelType = .ok .baseModel) ∧
    (lookupReg reg FieldType = none →
      get_diff_util reg FieldType = .ok .baseField) ∧
    (∀ n base, lookupReg reg (.mk n base) = none →
      PyType.mk n base ≠ ForeignKeyType → PyType.mk n base ≠ ModelType →
      PyType.mk n base ≠ FieldType → base ≠ .object →
      get_diff_util reg (.mk n base) = get_diff_util reg base) ∧
    (∀ n base,
      get_diff_util reg (.mk n base) = .error .notFound ↔
        ∀ a ∈ ancestorChain (.mk n base),
          lookupReg reg a = none ∧ a ≠ ForeignKeyType ∧ a ≠ ModelType ∧
            a ≠ FieldType) := by
  refine ⟨?_, ?_, ?_, ?_, ?_, ?_⟩
  · intro t u h
    cases t with
    | object => simp [get_diff_util, h]
    | mk n base => simp [get_diff_util, h]
  · intro h
    have h' : lookupReg reg (.mk "ForeignKey" FieldType) = none := h
    show get_diff_util reg (.mk "ForeignKey" FieldType) = .ok .baseModel
    simp only [get_diff_util, h']
    rw [if_pos (show PyType.mk "ForeignKey" FieldType = ForeignKeyType from
      rfl)]
  · intro h
    have h' : lookupReg reg (.mk "Model" .object) = none := h
    show get_diff_util reg (.mk "Model" .object) = .ok .baseModel
    simp only [get_diff_util, h']
    rw [if_neg (by decide),
      if_pos (show PyType.mk "Model" PyType.object = ModelType from rfl)]
  · intro h
    have h' : lookupReg reg (.mk "Field" .object) = none := h
    show get_diff_util reg (.mk "Field" .object) = .ok .baseField
    simp only [get_diff_util, h']
    rw [if_neg (by decide), if_neg (by decide),
      if_pos (show PyType.mk "Field" PyType.object = FieldType from rfl)]
  · intro n base h hf hm hfd hbo
    simp only [get_diff_util, h]
    rw [if_neg hf, if_neg hm, if_neg hfd, if_neg hbo]
  · intro n base
    exact get_diff_util_error_iff reg (.mk n base) (by simp)

/-- C7 witness: with an empty registry, the generic foreign key root
falls back to the model diff. -/
theorem C7_get_diff_util_witness :
    Diff.lookupReg [] Diff.ForeignKeyType = none ∧
    Diff.get_diff_util [] Diff.ForeignKeyType = .ok .baseModel :=
  ⟨rfl, (C7_get_diff_util []).2.1 rfl⟩

namespace Diff

/-- A model field as seen by `BaseModelDiff.get_diff`: its name and
whether it is an `AutoField` (auto-generated, skipped by default). -/
structure DjangoField where
  name : String
  isAuto : Bool
deriving DecidableEq, Repr

/-- A model instance: its `_meta.fields` and its attribute values. -/
structure ModelInstance where
  fields : List DjangoField
  values : List (String × String)
deriving DecidableEq, Repr

/-- Python `getattr(model, field.name)` on a model instance. -/
def model_getattr (m : ModelInstance) (n : String) : String :=
  (m.values.lookup n).getD ""

/-- The state of a `BaseModelDiff(model1, model2)` object: the two
instances, the class's `fields` configuration (None by default), the
`excludes` tuple, and the `_diff` memo cell (None until the first
`get_diff()` call). -/
structure BaseModelDiff where
  model1 : ModelInstance
  model2 : ModelInstance
  fieldsOpt : Option (List String)
  excludes : List String
  _diff : Option (List (String × String × String))
deriving DecidableEq, Repr

/-- The diff computation of `BaseModelDiff.get_diff`: the field list
is the configured `fields` or all of `model1._meta.fields`; fields
that are `AutoField`s or listed in `excludes` are skipped; each kept
field contributes one field-strategy diff, recorded here as the field
name with the two attribute values handed to the field's diff class
(`diff_class(getattr(self.model1, field.name),
getattr(self.model2, field.name))`). -/
def computeModelDiff (s : BaseModelDiff) :
    List (String × String × String) :=
  let diff_fields : List String :=
    match s.fieldsOpt with
    | some fs => fs
    | none => s.model1.fields.map (fun f => f.name)
  (diff_fields.filter (fun n =>
    match s.model1.fields.find? (fun f => f.name == n) with
    | some f => !f.isAuto && !(s.excludes.contains n)
    | none => false)).map
    (fun n => (n, model_getattr s.model1 n, model_getattr s.model2 n))

/-- Embedding of `BaseModelDiff.get_diff`: return the memoized `_diff`
when it is not None; otherwise compute the per-field diffs once, store
them in `_diff`, and return them. -/
def get_diff (s : BaseModelDiff) :
    List (String × String × String) × BaseModelDiff :=
  match s._diff with
  | some d => (d, s)
  | none =>
      let d := computeModelDiff s
      (d, { s with _diff := some d })

end Diff

open Diff in
/-- C9: the per-field diff computation of a model-diff strategy
instance is performed once and memoized: after a first `get_diff()`
call the memo holds the computed result, a second call on the
resulting instance returns the identical result and state, and on a
fresh instance the first call returns exactly the one-shot per-field
computation. -/
theorem C9_get_diff_memoized (s : BaseModelDiff) :
    get_diff (get_diff s).2 = ((get_diff s).1, (get_diff s).2) ∧
    ((get_diff s).2)._diff = some (get_diff s).1 ∧
    (s._diff = none → (get_diff s).1 = computeModelDiff s) := by
  rcases h : s._diff with _ | d <;> simp [get_diff, h]

open Diff in
/-- C9 witness: a fresh diff of two one-field instances; the first
call returns the computed field diff and memoizes it. -/
theorem C9_get_diff_memoized_witness :
    (BaseModelDiff.mk
        ⟨[⟨"id", true⟩, ⟨"title", false⟩],
          [("id", "1"), ("title", "Home")]⟩
        ⟨[⟨"id", true⟩, ⟨"title", false⟩],
          [("id", "1"), ("title", "Welcome")]⟩
        none [] none)._diff = none ∧
    (get_diff (BaseModelDiff.mk
        ⟨[⟨"id", true⟩, ⟨"title", false⟩],
          [("id", "1"), ("title", "Home")]⟩
        ⟨[⟨"id", true⟩, ⟨"title", false⟩],
          [("id", "1"), ("title", "Welcome")]⟩
        none [] none)).1 =
      computeModelDiff (BaseModelDiff.mk
        ⟨[⟨"id", true⟩, ⟨"title", false⟩],
          [("id", "1"), ("title", "Home")]⟩
        ⟨[⟨"id", true⟩, ⟨"title", false⟩],
          [("id", "1"), ("title", "Welcome")]⟩
        none [] none) :=
  ⟨rfl,
    (C9_get_diff_memoized (BaseModelDiff.mk
        ⟨[⟨"id", true⟩, ⟨"title", false⟩],
          [("id", "1"), ("title", "Home")]⟩
        ⟨[⟨"id", true⟩, ⟨"title", false⟩],
          [("id", "1"), ("title", "Welcome")]⟩
        none [] none)).2.2 rfl⟩
